import Mathlib

/-!
Verification of the fusionclaw Context Fusion Engine and Orchestrator.

This file gives a shallow embedding of the fusion engine
(`src/fusionclaw/fuser.py`), the data model (`src/fusionclaw/models.py`)
and the result assembly of the orchestrator (`src/fusionclaw/orchestrator.py`),
and proves the testable properties of the design specification about them.

The tokenizer (tiktoken, an external collaborator per the spec) is modelled
as an arbitrary function `tok : String → Nat`: the tokenizer contract of the spec
promises only that counting is total, deterministic, and non-negative.
-/

namespace Fusionclaw

/-- A single verifiable data point extracted by a claw (`models.Fact`).
Confidence is a float in `[0, 1]` in the source; we model it as a rational. -/
structure Fact where
  key : String
  value : String
  confidence : ℚ := 1
  deriving Repr, DecidableEq

/-- Structured context exported by a claw (`models.StateObject`). -/
structure StateObject where
  claw_id : String
  summary : String
  key_facts : List Fact := []
  raw_context : String := ""
  token_count : Int := 0
  deriving Repr, DecidableEq

/-- A single block within a fused context window (`models.ContextBlock`). -/
structure ContextBlock where
  source_claw_id : String
  content : String
  is_compressed : Bool := false
  original_tokens : Nat := 0
  final_tokens : Nat := 0
  deriving Repr, DecidableEq

/-- The merged context window ready for synthesis (`models.FusedContext`). -/
structure FusedContext where
  blocks : List ContextBlock
  total_tokens : Nat := 0
  compression_applied : Bool := false
  deriving Repr, DecidableEq

/-- Token usage stats from LLM calls (`models.TokenUsage`). -/
structure TokenUsage where
  prompt_tokens : Nat := 0
  completion_tokens : Nat := 0
  total_tokens : Nat := 0
  deriving Repr, DecidableEq

/-- Final output from the orchestrator (`models.SynthesisResult`). -/
structure SynthesisResult where
  answer : String
  fused_context : FusedContext
  model : String
  usage : TokenUsage
  deriving Repr, DecidableEq

/-- Model of the Python expression `"\n".join(lines)`. -/
def joinLines : List String → String
  | [] => ""
  | [x] => x
  | x :: y :: xs => x ++ "\n" ++ joinLines (y :: xs)

/-- The confidence annotation of a fact line:
`f" (confidence: {f.confidence})" if f.confidence < 1.0 else ""`. -/
def confSuffix (f : Fact) : String :=
  if f.confidence < 1 then " (confidence: " ++ toString f.confidence ++ ")" else ""

/-- One key-fact line in full/compressed renderings: `f"  - {f.key}: {f.value}{conf}"`. -/
def factLine (f : Fact) : String :=
  "  - " ++ f.key ++ ": " ++ f.value ++ confSuffix f

/-- One key-fact line in the facts-only rendering: `f"  - {f.key}: {f.value}"`. -/
def factLineBare (f : Fact) : String :=
  "  - " ++ f.key ++ ": " ++ f.value

/-- Model of `ContextFuser._format_full_block`: summary, key facts, then raw context. -/
def format_full_block (s : StateObject) : String :=
  joinLines (["Summary: " ++ s.summary]
    ++ (if s.key_facts.isEmpty then [] else "Key Facts:" :: s.key_facts.map factLine)
    ++ (if s.raw_context.isEmpty then [] else ["Full Context:\n" ++ s.raw_context]))

/-- Model of `ContextFuser._format_compressed_block`: summary + key facts only. -/
def format_compressed_block (s : StateObject) : String :=
  joinLines (["Summary: " ++ s.summary]
    ++ (if s.key_facts.isEmpty then [] else "Key Facts:" :: s.key_facts.map factLine))

/-- Model of `ContextFuser._format_facts_only`: key facts only, or a placeholder. -/
def format_facts_only (s : StateObject) : String :=
  if s.key_facts.isEmpty then "[" ++ s.claw_id ++ ": no facts available]"
  else joinLines ("Key Facts:" :: s.key_facts.map factLineBare)

/-- The full-fidelity candidate block built for every state in `fuse`
(lines 49-60 of fuser.py). -/
def mkFullBlock (tok : String → Nat) (s : StateObject) : ContextBlock :=
  let content := format_full_block s
  let tokens := tok content
  { source_claw_id := s.claw_id
    content := content
    is_compressed := false
    original_tokens := tokens
    final_tokens := tokens }

/-- The compressed candidate block built on the over-budget path
(lines 86-98 of fuser.py). -/
def mkCompressedBlock (tok : String → Nat) (s : StateObject) : ContextBlock :=
  { source_claw_id := s.claw_id
    content := format_compressed_block s
    is_compressed := true
    original_tokens := tok (format_full_block s)
    final_tokens := tok (format_compressed_block s) }

/-- The facts-only candidate block built on the over-budget path
(lines 102-113 of fuser.py). -/
def mkFactsBlock (tok : String → Nat) (s : StateObject) : ContextBlock :=
  { source_claw_id := s.claw_id
    content := format_facts_only s
    is_compressed := true
    original_tokens := tok (format_full_block s)
    final_tokens := tok (format_facts_only s) }

/-- Model of `priorities.get(claw_id, 0)`: lookup in the priority map with default 0. -/
def prioOf (priorities : List (String × Int)) (id : String) : Int :=
  (priorities.lookup id).getD 0

/-- Stable insertion of a state into a list already sorted by descending
priority: the inserted element goes before the first strictly-lower-or-equal
element only when its priority is strictly higher is false; equal priorities
keep the earlier (inserted-first) element in front. This realizes the Python
stable `list.sort(key=..., reverse=True)`. -/
def insertDesc (p : StateObject → Int) (x : StateObject) : List StateObject → List StateObject
  | [] => [x]
  | y :: ys => if p y ≤ p x then x :: y :: ys else y :: insertDesc p x ys

/-- Stable sort by descending priority (Python `paired.sort(key=..., reverse=True)`). -/
def sortDesc (p : StateObject → Int) : List StateObject → List StateObject
  | [] => []
  | x :: xs => insertDesc p x (sortDesc p xs)

/-- The over-budget walk of fuser.py lines 79-114: for each state in priority
order, try FULL, then COMPRESSED, then FACTS-ONLY, subtracting the tokens of
the first level that fits into the remaining budget; drop the state if none fits. -/
def ladder (tok : String → Nat) : List StateObject → Int → List ContextBlock
  | [], _ => []
  | s :: rest, remaining =>
    let fb := mkFullBlock tok s
    if (fb.final_tokens : Int) ≤ remaining then
      fb :: ladder tok rest (remaining - fb.final_tokens)
    else
      let cb := mkCompressedBlock tok s
      if (cb.final_tokens : Int) ≤ remaining then
        cb :: ladder tok rest (remaining - cb.final_tokens)
      else
        let gb := mkFactsBlock tok s
        if (gb.final_tokens : Int) ≤ remaining then
          gb :: ladder tok rest (remaining - gb.final_tokens)
        else
          ladder tok rest remaining

/-- Model of `ContextFuser.fuse` with the budget already resolved: build full blocks,
return them unchanged when their token sum fits the budget, otherwise sort by
descending priority and run the fidelity ladder. -/
def fuseCore (tok : String → Nat) (states : List StateObject) (budget : Int)
    (priorities : List (String × Int)) : FusedContext :=
  let full_blocks := states.map (mkFullBlock tok)
  let total : Nat := (full_blocks.map (·.final_tokens)).sum
  if (total : Int) ≤ budget then
    { blocks := full_blocks, total_tokens := total, compression_applied := false }
  else
    let sorted := sortDesc (fun s => prioOf priorities s.claw_id) states
    let final_blocks := ladder tok sorted budget
    { blocks := final_blocks
      total_tokens := (final_blocks.map (·.final_tokens)).sum
      compression_applied := true }

/-- Model of `budget = token_budget or self.token_budget` (fuser.py line 44): Python
truthiness makes an explicit override of `0` (and `None`) fall back to the
configured default budget of the engine. -/
def resolveBudget (override : Option Int) (dflt : Int) : Int :=
  match override with
  | none => dflt
  | some b => if b = 0 then dflt else b

/-- Model of `ContextFuser.fuse` as called: optional budget override and priority map. -/
def fuse (tok : String → Nat) (dflt : Int) (states : List StateObject)
    (override : Option Int) (priorities : List (String × Int)) : FusedContext :=
  fuseCore tok states (resolveBudget override dflt) priorities

/-- The fidelity tag of a block in the prompt (fuser.py line 129). -/
def fidelityTag (b : ContextBlock) : String :=
  if b.is_compressed then "COMPRESSED" else "FULL"

/-- The opening tag of one context block section (fuser.py line 131). -/
def blockHeader (b : ContextBlock) : String :=
  "<CONTEXT_BLOCK source=\"" ++ b.source_claw_id ++ "\" fidelity=\"" ++ fidelityTag b ++ "\">"

/-- The `parts` list of `ContextFuser.build_prompt` before joining. -/
def promptParts (fused : FusedContext) (user_query : String) : List String :=
  "<FUSED_CONTEXT>"
    :: ((fused.blocks.map (fun b => [blockHeader b, b.content, "</CONTEXT_BLOCK>"])).flatten
        ++ ["</FUSED_CONTEXT>", "", "<USER_QUERY>" ++ user_query ++ "</USER_QUERY>"])

/-- Model of `ContextFuser.build_prompt`: serialize the fused context and the query. -/
def build_prompt (fused : FusedContext) (user_query : String) : String :=
  joinLines (promptParts fused user_query)

/-- Result assembly of `Orchestrator._synthesize` (orchestrator.py lines 82-94):
the answer falls back to `""` and absent usage yields all-zero token counts. -/
def assembleResult (content : Option String) (usage : Option TokenUsage)
    (fused : FusedContext) (model : String) : SynthesisResult :=
  { answer := content.getD ""
    fused_context := fused
    model := model
    usage :=
      match usage with
      | some u =>
        { prompt_tokens := u.prompt_tokens
          completion_tokens := u.completion_tokens
          total_tokens := u.total_tokens }
      | none => { prompt_tokens := 0, completion_tokens := 0, total_tokens := 0 } }

/-! ### Basic lemmas about the candidate blocks -/

@[simp] theorem mkFullBlock_source (tok : String → Nat) (s : StateObject) :
    (mkFullBlock tok s).source_claw_id = s.claw_id := rfl

@[simp] theorem mkFullBlock_compressed (tok : String → Nat) (s : StateObject) :
    (mkFullBlock tok s).is_compressed = false := rfl

@[simp] theorem mkFullBlock_final (tok : String → Nat) (s : StateObject) :
    (mkFullBlock tok s).final_tokens = tok (format_full_block s) := rfl

@[simp] theorem mkFullBlock_original (tok : String → Nat) (s : StateObject) :
    (mkFullBlock tok s).original_tokens = tok (format_full_block s) := rfl

@[simp] theorem mkCompressedBlock_source (tok : String → Nat) (s : StateObject) :
    (mkCompressedBlock tok s).source_claw_id = s.claw_id := rfl

@[simp] theorem mkCompressedBlock_compressed (tok : String → Nat) (s : StateObject) :
    (mkCompressedBlock tok s).is_compressed = true := rfl

@[simp] theorem mkCompressedBlock_final (tok : String → Nat) (s : StateObject) :
    (mkCompressedBlock tok s).final_tokens = tok (format_compressed_block s) := rfl

@[simp] theorem mkFactsBlock_source (tok : String → Nat) (s : StateObject) :
    (mkFactsBlock tok s).source_claw_id = s.claw_id := rfl

@[simp] theorem mkFactsBlock_compressed (tok : String → Nat) (s : StateObject) :
    (mkFactsBlock tok s).is_compressed = true := rfl

@[simp] theorem mkFactsBlock_final (tok : String → Nat) (s : StateObject) :
    (mkFactsBlock tok s).final_tokens = tok (format_facts_only s) := rfl

/-! ### Lemmas about the over-budget fidelity ladder -/

theorem ladder_cons_full (tok : String → Nat) (s : StateObject) (rest : List StateObject)
    (r : Int) (h : (tok (format_full_block s) : Int) ≤ r) :
    ladder tok (s :: rest) r
      = mkFullBlock tok s :: ladder tok rest (r - tok (format_full_block s)) := by
  simp [ladder, h]

theorem ladder_cons_comp (tok : String → Nat) (s : StateObject) (rest : List StateObject)
    (r : Int) (h1 : ¬ (tok (format_full_block s) : Int) ≤ r)
    (h2 : (tok (format_compressed_block s) : Int) ≤ r) :
    ladder tok (s :: rest) r
      = mkCompressedBlock tok s :: ladder tok rest (r - tok (format_compressed_block s)) := by
  simp [ladder, h1, h2, mkCompressedBlock]

theorem ladder_cons_facts (tok : String → Nat) (s : StateObject) (rest : List StateObject)
    (r : Int) (h1 : ¬ (tok (format_full_block s) : Int) ≤ r)
    (h2 : ¬ (tok (format_compressed_block s) : Int) ≤ r)
    (h3 : (tok (format_facts_only s) : Int) ≤ r) :
    ladder tok (s :: rest) r
      = mkFactsBlock tok s :: ladder tok rest (r - tok (format_facts_only s)) := by
  simp [ladder, h1, h2, h3, mkCompressedBlock, mkFactsBlock]

theorem ladder_cons_drop (tok : String → Nat) (s : StateObject) (rest : List StateObject)
    (r : Int) (h1 : ¬ (tok (format_full_block s) : Int) ≤ r)
    (h2 : ¬ (tok (format_compressed_block s) : Int) ≤ r)
    (h3 : ¬ (tok (format_facts_only s) : Int) ≤ r) :
    ladder tok (s :: rest) r = ladder tok rest r := by
  simp [ladder, h1, h2, h3, mkCompressedBlock, mkFactsBlock]

theorem ladder_length_le (tok : String → Nat) :
    ∀ (l : List StateObject) (r : Int), (ladder tok l r).length ≤ l.length := by
  intro l
  induction l with
  | nil => intro r; simp [ladder]
  | cons s rest ih =>
    intro r
    by_cases h1 : (tok (format_full_block s) : Int) ≤ r
    · rw [ladder_cons_full tok s rest r h1]
      simpa using Nat.succ_le_succ (ih _)
    · by_cases h2 : (tok (format_compressed_block s) : Int) ≤ r
      · rw [ladder_cons_comp tok s rest r h1 h2]
        simpa using Nat.succ_le_succ (ih _)
      · by_cases h3 : (tok (format_facts_only s) : Int) ≤ r
        · rw [ladder_cons_facts tok s rest r h1 h2 h3]
          simpa using Nat.succ_le_succ (ih _)
        · rw [ladder_cons_drop tok s rest r h1 h2 h3]
          exact Nat.le_succ_of_le (ih _)

theorem ladder_final_le_original (tok : String → Nat) :
    ∀ (l : List StateObject) (r : Int),
      ∀ b ∈ ladder tok l r, b.final_tokens ≤ b.original_tokens := by
  intro l
  induction l with
  | nil => intro r b hb; simp [ladder] at hb
  | cons s rest ih =>
    intro r b hb
    by_cases h1 : (tok (format_full_block s) : Int) ≤ r
    · rw [ladder_cons_full tok s rest r h1] at hb
      rcases List.mem_cons.mp hb with h | h
      · subst h; exact Nat.le_refl _
      · exact ih _ b h
    · by_cases h2 : (tok (format_compressed_block s) : Int) ≤ r
      · rw [ladder_cons_comp tok s rest r h1 h2] at hb
        rcases List.mem_cons.mp hb with h | h
        · subst h
          show tok (format_compressed_block s) ≤ tok (format_full_block s)
          have hlt : (tok (format_compressed_block s) : Int) < tok (format_full_block s) :=
            lt_of_le_of_lt h2 (lt_of_not_le h1)
          exact_mod_cast le_of_lt hlt
        · exact ih _ b h
      · by_cases h3 : (tok (format_facts_only s) : Int) ≤ r
        · rw [ladder_cons_facts tok s rest r h1 h2 h3] at hb
          rcases List.mem_cons.mp hb with h | h
          · subst h
            show tok (format_facts_only s) ≤ tok (format_full_block s)
            have hlt : (tok (format_facts_only s) : Int) < tok (format_full_block s) :=
              lt_of_le_of_lt h3 (lt_of_not_le h1)
            exact_mod_cast le_of_lt hlt
          · exact ih _ b h
        · rw [ladder_cons_drop tok s rest r h1 h2 h3] at hb
          exact ih _ b hb

theorem ladder_sources_sublist (tok : String → Nat) :
    ∀ (l : List StateObject) (r : Int),
      ((ladder tok l r).map (·.source_claw_id)).Sublist (l.map (·.claw_id)) := by
  intro l
  induction l with
  | nil => intro r; simp [ladder]
  | cons s rest ih =>
    intro r
    by_cases h1 : (tok (format_full_block s) : Int) ≤ r
    · rw [ladder_cons_full tok s rest r h1]
      simpa using List.Sublist.cons₂ s.claw_id (ih _)
    · by_cases h2 : (tok (format_compressed_block s) : Int) ≤ r
      · rw [ladder_cons_comp tok s rest r h1 h2]
        simpa [mkCompressedBlock] using List.Sublist.cons₂ s.claw_id (ih _)
      · by_cases h3 : (tok (format_facts_only s) : Int) ≤ r
        · rw [ladder_cons_facts tok s rest r h1 h2 h3]
          simpa [mkFactsBlock] using List.Sublist.cons₂ s.claw_id (ih _)
        · rw [ladder_cons_drop tok s rest r h1 h2 h3]
          exact List.Sublist.cons _ (ih _)

/-- If the ladder kept every state and every kept block is FULL fidelity, then
the full-fidelity token sum fits in the (non-negative) remaining budget. -/
theorem ladder_all_full_sum (tok : String → Nat) :
    ∀ (l : List StateObject) (r : Int), 0 ≤ r →
      (ladder tok l r).length = l.length →
      (∀ b ∈ ladder tok l r, b.is_compressed = false) →
      ((l.map (fun s => tok (format_full_block s))).sum : Int) ≤ r := by
  intro l
  induction l with
  | nil => intro r hr _ _; simpa using hr
  | cons s rest ih =>
    intro r hr hlen hfull
    by_cases h1 : (tok (format_full_block s) : Int) ≤ r
    · rw [ladder_cons_full tok s rest r h1] at hlen hfull
      have hrest := ih (r - tok (format_full_block s))
        (by omega)
        (by simpa using hlen)
        (by intro b hb; exact hfull b (List.mem_cons_of_mem _ hb))
      simp only [List.map_cons, List.sum_cons]
      omega
    · by_cases h2 : (tok (format_compressed_block s) : Int) ≤ r
      · rw [ladder_cons_comp tok s rest r h1 h2] at hfull
        exact absurd (hfull (mkCompressedBlock tok s) (List.mem_cons_self _ _))
          (by simp [mkCompressedBlock])
      · by_cases h3 : (tok (format_facts_only s) : Int) ≤ r
        · rw [ladder_cons_facts tok s rest r h1 h2 h3] at hfull
          exact absurd (hfull (mkFactsBlock tok s) (List.mem_cons_self _ _))
            (by simp [mkFactsBlock])
        · rw [ladder_cons_drop tok s rest r h1 h2 h3] at hlen
          have := ladder_length_le tok rest r
          simp only [List.length_cons] at hlen
          omega

/-! ### Lemmas about the stable descending priority sort -/

theorem insertDesc_perm (p : StateObject → Int) (x : StateObject) :
    ∀ l : List StateObject, (insertDesc p x l).Perm (x :: l) := by
  intro l
  induction l with
  | nil => simp [insertDesc]
  | cons y ys ih =>
    by_cases h : p y ≤ p x
    · simp [insertDesc, h]
    · rw [insertDesc, if_neg h]
      exact (ih.cons y).trans (List.Perm.swap x y ys)

theorem sortDesc_perm (p : StateObject → Int) :
    ∀ l : List StateObject, (sortDesc p l).Perm l := by
  intro l
  induction l with
  | nil => simp [sortDesc]
  | cons x xs ih =>
    exact (insertDesc_perm p x (sortDesc p xs)).trans (ih.cons x)

theorem mem_insertDesc (p : StateObject → Int) (x z : StateObject) (l : List StateObject) :
    z ∈ insertDesc p x l ↔ z = x ∨ z ∈ l := by
  rw [(insertDesc_perm p x l).mem_iff]
  simp

theorem insertDesc_pairwise (p : StateObject → Int) (x : StateObject) :
    ∀ l : List StateObject, l.Pairwise (fun a b => p b ≤ p a) →
      (insertDesc p x l).Pairwise (fun a b => p b ≤ p a) := by
  intro l
  induction l with
  | nil => intro _; simp [insertDesc]
  | cons y ys ih =>
    intro hp
    rcases List.pairwise_cons.mp hp with ⟨hy, hys⟩
    by_cases h : p y ≤ p x
    · rw [insertDesc, if_pos h]
      refine List.pairwise_cons.mpr ⟨?_, hp⟩
      intro z hz
      rcases List.mem_cons.mp hz with rfl | hz
      · exact h
      · exact le_trans (hy z hz) h
    · rw [insertDesc, if_neg h]
      refine List.pairwise_cons.mpr ⟨?_, ih hys⟩
      intro z hz
      rcases (mem_insertDesc p x z ys).mp hz with rfl | hz
      · exact le_of_lt (lt_of_not_le h)
      · exact hy z hz

theorem sortDesc_pairwise (p : StateObject → Int) :
    ∀ l : List StateObject, (sortDesc p l).Pairwise (fun a b => p b ≤ p a) := by
  intro l
  induction l with
  | nil => simp [sortDesc]
  | cons x xs ih => exact insertDesc_pairwise p x (sortDesc p xs) ih

/-- Stability of the insertion: filtering any one priority value out of an
insertion result keeps the inserted element first exactly when it has that
value, because every element it is placed after has strictly higher priority. -/
theorem insertDesc_filter (p : StateObject → Int) (x : StateObject) (v : Int) :
    ∀ l : List StateObject, l.Pairwise (fun a b => p b ≤ p a) →
      (insertDesc p x l).filter (fun s => p s == v)
        = if p x == v then x :: l.filter (fun s => p s == v)
          else l.filter (fun s => p s == v) := by
  intro l
  induction l with
  | nil =>
    intro _
    by_cases hx : p x == v <;> simp [insertDesc, List.filter, hx]
  | cons y ys ih =>
    intro hp
    rcases List.pairwise_cons.mp hp with ⟨_, hys⟩
    by_cases h : p y ≤ p x
    · rw [insertDesc, if_pos h]
      by_cases hx : p x == v <;> simp [List.filter, hx]
    · by_cases hx : (p x == v) = true
      · have hxv : p x = v := by simpa using hx
        have hyv : (p y == v) = false := by
          have hlt : v < p y := hxv ▸ lt_of_not_le h
          simpa [beq_eq_false_iff_ne] using ne_of_gt hlt
        simp [insertDesc, h, List.filter_cons, hx, hyv, ih hys]
      · have hxf : (p x == v) = false := by simpa using hx
        simp [insertDesc, h, List.filter_cons, hxf, ih hys]

/-- Stability of the sort: for every priority value, the elements holding that
value appear in the sorted list exactly in their original relative order. -/
theorem sortDesc_filter (p : StateObject → Int) (v : Int) :
    ∀ l : List StateObject,
      (sortDesc p l).filter (fun s => p s == v) = l.filter (fun s => p s == v) := by
  intro l
  induction l with
  | nil => simp [sortDesc]
  | cons x xs ih =>
    rw [sortDesc, insertDesc_filter p x v (sortDesc p xs) (sortDesc_pairwise p xs)]
    by_cases hx : p x == v <;> simp [List.filter_cons, hx, ih]

theorem insertDesc_congr (p q : StateObject → Int) (x : StateObject) :
    ∀ l : List StateObject, (∀ y ∈ x :: l, p y = q y) →
      insertDesc p x l = insertDesc q x l := by
  intro l
  induction l with
  | nil => intro _; rfl
  | cons y ys ih =>
    intro hall
    have hx : p x = q x := hall x (List.mem_cons_self _ _)
    have hy : p y = q y := hall y (List.mem_cons_of_mem _ (List.mem_cons_self _ _))
    have hrest : ∀ z ∈ x :: ys, p z = q z := by
      intro z hz
      rcases List.mem_cons.mp hz with rfl | hz
      · exact hx
      · exact hall z (List.mem_cons_of_mem _ (List.mem_cons_of_mem _ hz))
    simp only [insertDesc, hx, hy, ih hrest]

theorem sortDesc_congr (p q : StateObject → Int) :
    ∀ l : List StateObject, (∀ y ∈ l, p y = q y) → sortDesc p l = sortDesc q l := by
  intro l
  induction l with
  | nil => intro _; rfl
  | cons x xs ih =>
    intro hall
    have hxs : ∀ y ∈ xs, p y = q y := fun y hy => hall y (List.mem_cons_of_mem _ hy)
    rw [sortDesc, sortDesc, ih hxs]
    refine insertDesc_congr p q x (sortDesc q xs) ?_
    intro y hy
    rcases List.mem_cons.mp hy with rfl | hy
    · exact hall y (List.mem_cons_self _ _)
    · exact hall y (List.mem_cons_of_mem _ (((sortDesc_perm q xs).mem_iff).mp hy))

/-! ### Structure of the renderings -/

theorem joinLines_cons (x : String) (l : List String) (h : l ≠ []) :
    joinLines (x :: l) = x ++ ("\n" ++ joinLines l) := by
  cases l with
  | nil => exact absurd rfl h
  | cons y ys => simp [joinLines, String.append_assoc]

theorem joinLines_append_single (l : List String) (x : String) (h : l ≠ []) :
    joinLines (l ++ [x]) = joinLines l ++ ("\n" ++ x) := by
  induction l with
  | nil => exact absurd rfl h
  | cons a as ih =>
    cases as with
    | nil => simp [joinLines, String.append_assoc]
    | cons b bs =>
      have hne : b :: bs ≠ [] := by simp
      have hne2 : (b :: bs) ++ [x] ≠ [] := by simp
      rw [List.cons_append, joinLines_cons a _ hne2, ih hne,
        joinLines_cons a _ hne, String.append_assoc, String.append_assoc]

/-- With non-empty raw context, the full rendering is the compressed rendering
followed by the raw context section. -/
theorem format_full_eq_append (s : StateObject) (h : s.raw_context.isEmpty = false) :
    format_full_block s
      = format_compressed_block s ++ ("\n" ++ ("Full Context:\n" ++ s.raw_context)) := by
  unfold format_full_block format_compressed_block
  rw [if_neg (by simp [h] : ¬ s.raw_context.isEmpty = true)]
  exact joinLines_append_single _ _ (by simp)

theorem factLine_eq_bare (f : Fact) (h : ¬ f.confidence < 1) :
    factLine f = factLineBare f := by
  unfold factLine factLineBare confSuffix
  rw [if_neg h, String.append_empty]

/-- With at least one key fact, all at full confidence, the compressed rendering
is the summary line followed by the facts-only rendering. -/
theorem format_compressed_eq_append (s : StateObject) (h : s.key_facts.isEmpty = false)
    (hconf : ∀ f ∈ s.key_facts, ¬ f.confidence < 1) :
    format_compressed_block s
      = (("Summary: " ++ s.summary) ++ "\n") ++ format_facts_only s := by
  unfold format_compressed_block format_facts_only
  rw [if_neg (by simp [h] : ¬ s.key_facts.isEmpty = true),
    if_neg (by simp [h] : ¬ s.key_facts.isEmpty = true)]
  have hmap : s.key_facts.map factLine = s.key_facts.map factLineBare :=
    List.map_congr_left (fun f hf => factLine_eq_bare f (hconf f hf))
  rw [hmap, List.singleton_append, joinLines_cons _ _ (by simp)]
  simp [String.append_assoc]

/-! ### Structure of the built prompt -/

/-- The given pieces occur, in order and verbatim, as disjoint substrings of `s`. -/
def containsInOrder : List String → String → Prop
  | [], _ => True
  | c :: cs, s => ∃ t u, s = t ++ (c ++ u) ∧ containsInOrder cs u

theorem containsInOrder_prepend (cs : List String) (s t : String)
    (h : containsInOrder cs s) : containsInOrder cs (t ++ s) := by
  match cs with
  | [] => trivial
  | c :: cs =>
    rcases h with ⟨a, u, hs, hrest⟩
    exact ⟨t ++ a, u, by rw [hs, String.append_assoc], hrest⟩

theorem containsInOrder_flatten (blocks : List ContextBlock) (tail : List String)
    (htail : tail ≠ []) :
    containsInOrder (blocks.map (·.content))
      (joinLines (((blocks.map
        (fun b => [blockHeader b, b.content, "</CONTEXT_BLOCK>"])).flatten ++ tail))) := by
  induction blocks with
  | nil => trivial
  | cons b bs ih =>
    have hne : ∀ (zs : List String), zs ++ tail ≠ [] := by
      intro zs hz
      rcases List.append_eq_nil.mp hz with ⟨_, h2⟩
      exact htail h2
    simp only [List.map_cons, List.flatten_cons, List.cons_append, List.nil_append,
      List.append_assoc]
    rw [joinLines_cons _ _ (by simp),
      joinLines_cons _ _ (by simp),
      joinLines_cons _ _ (hne _)]
    refine ⟨blockHeader b ++ "\n",
      "\n" ++ ("</CONTEXT_BLOCK>" ++ ("\n" ++ joinLines
        ((List.map (fun c => [blockHeader c, c.content, "</CONTEXT_BLOCK>"]) bs).flatten
          ++ tail))), ?_, ?_⟩
    · rw [String.append_assoc]
    · exact containsInOrder_prepend _ _ _
        (containsInOrder_prepend _ _ _ (containsInOrder_prepend _ _ _ ih))

/-! ### The fidelity ladder as the spec describes it, as a second definition -/

/-- The fidelity ladder of spec §4.1 step 4, highest fidelity first:
FULL, then COMPRESSED, then FACTS-ONLY. -/
def fidelityCandidates (tok : String → Nat) (s : StateObject) : List ContextBlock :=
  [mkFullBlock tok s, mkCompressedBlock tok s, mkFactsBlock tok s]

/-- Spec §4.1 step 4 for one Finding: the first level of the ladder whose token
count fits in the remaining budget, or none (DROP). -/
def specStep (tok : String → Nat) (remaining : Int) (s : StateObject) : Option ContextBlock :=
  (fidelityCandidates tok s).find? (fun b => decide ((b.final_tokens : Int) ≤ remaining))

/-- Spec §4.1 step 4: walk the ordered list maintaining `remaining = budget`,
including each Finding at the first fitting fidelity level and subtracting its
tokens, or dropping it when no level fits. -/
def specWalk (tok : String → Nat) : List StateObject → Int → List ContextBlock
  | [], _ => []
  | s :: rest, remaining =>
    match specStep tok remaining s with
    | some b => b :: specWalk tok rest (remaining - b.final_tokens)
    | none => specWalk tok rest remaining

/-- The over-budget walk of the code is exactly the first-fit fidelity ladder of the spec. -/
theorem ladder_eq_specWalk (tok : String → Nat) :
    ∀ (l : List StateObject) (r : Int), ladder tok l r = specWalk tok l r := by
  intro l
  induction l with
  | nil => intro r; rfl
  | cons s rest ih =>
    intro r
    by_cases h1 : (tok (format_full_block s) : Int) ≤ r
    · rw [ladder_cons_full tok s rest r h1, specWalk, specStep, fidelityCandidates]
      simp only [List.find?, mkFullBlock_final, decide_eq_true h1]
      rw [ih]
    · by_cases h2 : (tok (format_compressed_block s) : Int) ≤ r
      · rw [ladder_cons_comp tok s rest r h1 h2, specWalk, specStep, fidelityCandidates]
        simp only [List.find?, mkFullBlock_final, decide_eq_false h1, decide_eq_true]
        have : (((mkCompressedBlock tok s).final_tokens : Int) ≤ r) := h2
        simp only [decide_eq_true this]
        rw [ih]
        rfl
      · by_cases h3 : (tok (format_facts_only s) : Int) ≤ r
        · rw [ladder_cons_facts tok s rest r h1 h2 h3, specWalk, specStep, fidelityCandidates]
          have e2 : (decide (((mkCompressedBlock tok s).final_tokens : Int) ≤ r)) = false :=
            decide_eq_false h2
          have e3 : (decide (((mkFactsBlock tok s).final_tokens : Int) ≤ r)) = true :=
            decide_eq_true h3
          simp only [List.find?, mkFullBlock_final, decide_eq_false h1, e2, e3]
          rw [ih]
          rfl
        · rw [ladder_cons_drop tok s rest r h1 h2 h3, specWalk, specStep, fidelityCandidates]
          have e2 : (decide (((mkCompressedBlock tok s).final_tokens : Int) ≤ r)) = false :=
            decide_eq_false h2
          have e3 : (decide (((mkFactsBlock tok s).final_tokens : Int) ≤ r)) = false :=
            decide_eq_false h3
          simp only [List.find?, mkFullBlock_final, decide_eq_false h1, e2, e3]
          exact ih r

/-! ### Independence from the advisory token count -/

/-- Two states that agree on everything except the advisory `token_count`. -/
def sameButTokenCount (a b : StateObject) : Prop :=
  a.claw_id = b.claw_id ∧ a.summary = b.summary ∧ a.key_facts = b.key_facts ∧
    a.raw_context = b.raw_context

theorem sameButTokenCount_format_full (a b : StateObject) (h : sameButTokenCount a b) :
    format_full_block a = format_full_block b := by
  rcases h with ⟨_, h2, h3, h4⟩
  unfold format_full_block
  rw [h2, h3, h4]

theorem sameButTokenCount_format_comp (a b : StateObject) (h : sameButTokenCount a b) :
    format_compressed_block a = format_compressed_block b := by
  rcases h with ⟨_, h2, h3, h4⟩
  unfold format_compressed_block
  rw [h2, h3]

theorem sameButTokenCount_format_facts (a b : StateObject) (h : sameButTokenCount a b) :
    format_facts_only a = format_facts_only b := by
  rcases h with ⟨h1, _, h3, h4⟩
  unfold format_facts_only
  rw [h1, h3]

theorem sameButTokenCount_mkFull (tok : String → Nat) (a b : StateObject)
    (h : sameButTokenCount a b) : mkFullBlock tok a = mkFullBlock tok b := by
  unfold mkFullBlock
  rw [sameButTokenCount_format_full a b h, h.1]

theorem sameButTokenCount_mkComp (tok : String → Nat) (a b : StateObject)
    (h : sameButTokenCount a b) : mkCompressedBlock tok a = mkCompressedBlock tok b := by
  unfold mkCompressedBlock
  rw [sameButTokenCount_format_full a b h, sameButTokenCount_format_comp a b h, h.1]

theorem sameButTokenCount_mkFacts (tok : String → Nat) (a b : StateObject)
    (h : sameButTokenCount a b) : mkFactsBlock tok a = mkFactsBlock tok b := by
  unfold mkFactsBlock
  rw [sameButTokenCount_format_full a b h, sameButTokenCount_format_facts a b h, h.1]

theorem sameButTokenCount_ladder (tok : String → Nat) :
    ∀ (l1 l2 : List StateObject), List.Forall₂ sameButTokenCount l1 l2 →
      ∀ r : Int, ladder tok l1 r = ladder tok l2 r := by
  intro l1 l2 hf
  induction hf with
  | nil => intro r; rfl
  | cons hab hrest ih =>
    rename_i a b as bs
    intro r
    have hfull := sameButTokenCount_format_full a b hab
    have hcomp := sameButTokenCount_format_comp a b hab
    have hfacts := sameButTokenCount_format_facts a b hab
    by_cases h1 : (tok (format_full_block a) : Int) ≤ r
    · rw [ladder_cons_full tok a as r h1,
        ladder_cons_full tok b bs r (hfull ▸ h1),
        sameButTokenCount_mkFull tok a b hab, hfull, ih]
    · by_cases h2 : (tok (format_compressed_block a) : Int) ≤ r
      · rw [ladder_cons_comp tok a as r h1 h2,
          ladder_cons_comp tok b bs r (hfull ▸ h1) (hcomp ▸ h2),
          sameButTokenCount_mkComp tok a b hab, hcomp, ih]
      · by_cases h3 : (tok (format_facts_only a) : Int) ≤ r
        · rw [ladder_cons_facts tok a as r h1 h2 h3,
            ladder_cons_facts tok b bs r (hfull ▸ h1) (hcomp ▸ h2) (hfacts ▸ h3),
            sameButTokenCount_mkFacts tok a b hab, hfacts, ih]
        · rw [ladder_cons_drop tok a as r h1 h2 h3,
            ladder_cons_drop tok b bs r (hfull ▸ h1) (hcomp ▸ h2) (hfacts ▸ h3), ih]

theorem sameButTokenCount_insertDesc (p : StateObject → Int)
    (hp : ∀ a b, sameButTokenCount a b → p a = p b) (x y : StateObject)
    (hxy : sameButTokenCount x y) :
    ∀ (l1 l2 : List StateObject), List.Forall₂ sameButTokenCount l1 l2 →
      List.Forall₂ sameButTokenCount (insertDesc p x l1) (insertDesc p y l2) := by
  intro l1 l2 hf
  induction hf with
  | nil => exact List.Forall₂.cons hxy List.Forall₂.nil
  | cons hab hrest ih =>
    rename_i a b as bs
    by_cases h : p a ≤ p x
    · rw [insertDesc, if_pos h, insertDesc, if_pos (hp a b hab ▸ hp x y hxy ▸ h)]
      exact List.Forall₂.cons hxy (List.Forall₂.cons hab hrest)
    · rw [insertDesc, if_neg h, insertDesc, if_neg (hp a b hab ▸ hp x y hxy ▸ h)]
      exact List.Forall₂.cons hab ih

theorem sameButTokenCount_sortDesc (p : StateObject → Int)
    (hp : ∀ a b, sameButTokenCount a b → p a = p b) :
    ∀ (l1 l2 : List StateObject), List.Forall₂ sameButTokenCount l1 l2 →
      List.Forall₂ sameButTokenCount (sortDesc p l1) (sortDesc p l2) := by
  intro l1 l2 hf
  induction hf with
  | nil => exact List.Forall₂.nil
  | cons hab hrest ih =>
    rename_i a b as bs
    exact sameButTokenCount_insertDesc p hp a b hab _ _ ih

/-! ### The two paths of fuse -/

/-- The sum of full-fidelity rendering token counts over all findings. -/
def fullSum (tok : String → Nat) (states : List StateObject) : Nat :=
  (states.map (fun s => tok (format_full_block s))).sum

theorem sum_full_blocks (tok : String → Nat) (states : List StateObject) :
    (states.map (mkFullBlock tok)).map (·.final_tokens)
      = states.map (fun s => tok (format_full_block s)) := by
  simp [List.map_map, Function.comp]

theorem fuseCore_under (tok : String → Nat) (states : List StateObject) (budget : Int)
    (pri : List (String × Int)) (h : (fullSum tok states : Int) ≤ budget) :
    fuseCore tok states budget pri
      = { blocks := states.map (mkFullBlock tok)
          total_tokens := fullSum tok states
          compression_applied := false } := by
  simp only [fuseCore, sum_full_blocks]
  exact if_pos h

theorem fuseCore_over (tok : String → Nat) (states : List StateObject) (budget : Int)
    (pri : List (String × Int)) (h : ¬ (fullSum tok states : Int) ≤ budget) :
    fuseCore tok states budget pri
      = { blocks := ladder tok (sortDesc (fun s => prioOf pri s.claw_id) states) budget
          total_tokens := ((ladder tok (sortDesc (fun s => prioOf pri s.claw_id) states)
            budget).map (·.final_tokens)).sum
          compression_applied := true } := by
  simp only [fuseCore, sum_full_blocks]
  exact if_neg h

theorem sortDesc_length (p : StateObject → Int) (l : List StateObject) :
    (sortDesc p l).length = l.length :=
  (sortDesc_perm p l).length_eq

theorem sortDesc_fullSum (tok : String → Nat) (p : StateObject → Int)
    (l : List StateObject) : fullSum tok (sortDesc p l) = fullSum tok l :=
  ((sortDesc_perm p l).map (fun s => tok (format_full_block s))).sum_eq

/-- On the over-budget path, at least one emitted block is compressed or at
least one state was dropped. -/
theorem ladder_not_all_full (tok : String → Nat) (states : List StateObject)
    (budget : Int) (pri : List (String × Int)) (hb : 0 < budget)
    (h : ¬ (fullSum tok states : Int) ≤ budget) :
    (∃ b ∈ ladder tok (sortDesc (fun s => prioOf pri s.claw_id) states) budget,
        b.is_compressed = true)
      ∨ (ladder tok (sortDesc (fun s => prioOf pri s.claw_id) states) budget).length
          < states.length := by
  by_contra hc
  push_neg at hc
  obtain ⟨hnone, hlen⟩ := hc
  have hlen2 : (ladder tok (sortDesc (fun s => prioOf pri s.claw_id) states) budget).length
      = (sortDesc (fun s => prioOf pri s.claw_id) states).length := by
    have h1 := ladder_length_le tok (sortDesc (fun s => prioOf pri s.claw_id) states) budget
    have h2 : (sortDesc (fun s => prioOf pri s.claw_id) states).length = states.length :=
      sortDesc_length _ _
    omega
  have hallfull : ∀ b ∈ ladder tok (sortDesc (fun s => prioOf pri s.claw_id) states) budget,
      b.is_compressed = false := by
    intro b hbm
    have hnb := hnone b hbm
    simpa using hnb
  have hsum := ladder_all_full_sum tok (sortDesc (fun s => prioOf pri s.claw_id) states)
    budget (le_of_lt hb) hlen2 hallfull
  rw [show ((sortDesc (fun s => prioOf pri s.claw_id) states).map
      (fun s => tok (format_full_block s))).sum
    = fullSum tok (sortDesc (fun s => prioOf pri s.claw_id) states) from rfl,
    sortDesc_fullSum] at hsum
  exact h hsum

/-! ### The claims -/

/-- Claim C1: for every list of findings and every budget > 0 such that the sum of
full-fidelity rendering token counts over all findings is ≤ budget (including
exact equality), `fuse` returns one FULL (non-compressed) block per finding in
input order, with `totalTokens` equal to that exact sum and
`compressionApplied = false`. -/
theorem fuse_lossless (tok : String → Nat) (states : List StateObject) (budget : Int)
    (pri : List (String × Int)) (hb : 0 < budget)
    (hsum : (fullSum tok states : Int) ≤ budget) :
    (fuseCore tok states budget pri).blocks = states.map (mkFullBlock tok) ∧
    (∀ b ∈ (fuseCore tok states budget pri).blocks, b.is_compressed = false) ∧
    (fuseCore tok states budget pri).total_tokens = fullSum tok states ∧
    (fuseCore tok states budget pri).compression_applied = false := by
  rw [fuseCore_under tok states budget pri hsum]
  refine ⟨rfl, ?_, rfl, rfl⟩
  intro b hbm
  rcases List.mem_map.mp hbm with ⟨s, _, rfl⟩
  rfl

/-- Concrete states used by the witnesses. -/
def wA : StateObject :=
  { claw_id := "pricing", summary := "price info", key_facts := [{ key := "price", value := "49" }],
    raw_context := "the price is 49 dollars" }

/-- Concrete states used by the witnesses. -/
def wB : StateObject :=
  { claw_id := "product", summary := "product info", raw_context := "uptime is high" }

theorem fuse_lossless_witness :
    (0 : Int) < (fullSum String.length [wA, wB] : Int) ∧
    (fullSum String.length [wA, wB] : Int) ≤ (fullSum String.length [wA, wB] : Int) ∧
    ((fuseCore String.length [wA, wB] (fullSum String.length [wA, wB]) []).blocks
        = [wA, wB].map (mkFullBlock String.length) ∧
      (∀ b ∈ (fuseCore String.length [wA, wB] (fullSum String.length [wA, wB]) []).blocks,
        b.is_compressed = false) ∧
      (fuseCore String.length [wA, wB] (fullSum String.length [wA, wB]) []).total_tokens
        = fullSum String.length [wA, wB] ∧
      (fuseCore String.length [wA, wB] (fullSum String.length [wA, wB]) []).compression_applied
        = false) :=
  ⟨by decide, by decide,
    fuse_lossless String.length [wA, wB] (fullSum String.length [wA, wB]) []
      (by decide) (by decide)⟩

/-- Claim C2: for every FusedContext returned by fuse (under the precondition of the spec,
budget > 0), `compressionApplied` is true iff at least one included block is
not FULL-fidelity or at least one input finding contributed no block at all. -/
theorem fuse_compression_flag (tok : String → Nat) (states : List StateObject)
    (budget : Int) (pri : List (String × Int)) (hb : 0 < budget) :
    ((fuseCore tok states budget pri).compression_applied = true ↔
      ((∃ b ∈ (fuseCore tok states budget pri).blocks, b.is_compressed = true) ∨
        (fuseCore tok states budget pri).blocks.length < states.length)) := by
  by_cases h : (fullSum tok states : Int) ≤ budget
  · rw [fuseCore_under tok states budget pri h]
    constructor
    · intro hft
      exact absurd hft (by simp)
    · rintro (⟨b, hbmem, hcomp⟩ | hlen)
      · rcases List.mem_map.mp hbmem with ⟨s, _, rfl⟩
        exact absurd hcomp (by simp)
      · have hlen2 : (states.map (mkFullBlock tok)).length < states.length := hlen
        rw [List.length_map] at hlen2
        exact absurd hlen2 (lt_irrefl _)
  · rw [fuseCore_over tok states budget pri h]
    constructor
    · intro _
      exact ladder_not_all_full tok states budget pri hb h
    · intro _
      rfl

theorem fuse_compression_flag_witness :
    (0 : Int) < 1 ∧
    ((fuseCore String.length [wA, wB] 1 []).compression_applied = true ↔
      ((∃ b ∈ (fuseCore String.length [wA, wB] 1 []).blocks, b.is_compressed = true) ∨
        (fuseCore String.length [wA, wB] 1 []).blocks.length < [wA, wB].length)) :=
  ⟨by decide, fuse_compression_flag String.length [wA, wB] 1 [] (by decide)⟩

/-- Claim C3: for every FusedContext returned by fuse, `totalTokens` equals the sum of
`finalTokens` over its blocks, and every block satisfies
`finalTokens ≤ originalTokens`. -/
theorem fuse_token_accounting (tok : String → Nat) (states : List StateObject)
    (budget : Int) (pri : List (String × Int)) :
    (fuseCore tok states budget pri).total_tokens
        = ((fuseCore tok states budget pri).blocks.map (·.final_tokens)).sum ∧
    ∀ b ∈ (fuseCore tok states budget pri).blocks, b.final_tokens ≤ b.original_tokens := by
  by_cases h : (fullSum tok states : Int) ≤ budget
  · rw [fuseCore_under tok states budget pri h]
    constructor
    · show fullSum tok states = ((states.map (mkFullBlock tok)).map (·.final_tokens)).sum
      rw [sum_full_blocks]
      rfl
    · intro b hbm
      rcases List.mem_map.mp hbm with ⟨s, _, rfl⟩
      exact Nat.le_refl _
  · rw [fuseCore_over tok states budget pri h]
    exact ⟨rfl, ladder_final_le_original tok _ budget⟩

/-- Claim C4: on the over-budget path, fuse processes findings in priority order
maintaining a remaining budget: each finding is included at the first fidelity
level of the ladder FULL, COMPRESSED, FACTS-ONLY whose token count fits the
remaining budget (subtracting it), and contributes no block when none fits
(`specWalk` is the first-fit walk as the spec words it); a budget too small for any content
never makes fuse fail — it just drops blocks, so there are never more blocks
than findings. -/
theorem fuse_fidelity_ladder (tok : String → Nat) (states : List StateObject)
    (budget : Int) (pri : List (String × Int))
    (hover : ¬ (fullSum tok states : Int) ≤ budget) :
    (fuseCore tok states budget pri).blocks
        = specWalk tok (sortDesc (fun s => prioOf pri s.claw_id) states) budget ∧
    (fuseCore tok states budget pri).blocks.length ≤ states.length := by
  rw [fuseCore_over tok states budget pri hover]
  constructor
  · exact ladder_eq_specWalk tok _ budget
  · show (ladder tok (sortDesc (fun s => prioOf pri s.claw_id) states) budget).length
      ≤ states.length
    calc (ladder tok (sortDesc (fun s => prioOf pri s.claw_id) states) budget).length
        ≤ (sortDesc (fun s => prioOf pri s.claw_id) states).length :=
          ladder_length_le tok _ budget
      _ = states.length := sortDesc_length _ _

theorem fuse_fidelity_ladder_witness :
    ¬ (fullSum String.length [wA, wB] : Int) ≤ 50 ∧
    ((fuseCore String.length [wA, wB] 50 [("product", 5)]).blocks
        = specWalk String.length
            (sortDesc (fun s => prioOf [("product", 5)] s.claw_id) [wA, wB]) 50 ∧
      (fuseCore String.length [wA, wB] 50 [("product", 5)]).blocks.length ≤ [wA, wB].length) :=
  ⟨by decide,
    fuse_fidelity_ladder String.length [wA, wB] 50 [("product", 5)] (by decide)⟩

/-- Claim C5: on the over-budget path, output blocks appear in descending order of
priority (priority of a block is the priority-map entry for its source claw id,
defaulting to 0); findings of equal priority keep their original relative input
order (stable sort); and priority keys matching no finding have no effect. -/
theorem fuse_priority_order (tok : String → Nat) (states : List StateObject)
    (budget : Int) (pri : List (String × Int))
    (hover : ¬ (fullSum tok states : Int) ≤ budget) :
    ((fuseCore tok states budget pri).blocks.Pairwise
        (fun b b' => prioOf pri b'.source_claw_id ≤ prioOf pri b.source_claw_id)) ∧
    (∀ v : Int,
      (sortDesc (fun s => prioOf pri s.claw_id) states).filter
          (fun s => prioOf pri s.claw_id == v)
        = states.filter (fun s => prioOf pri s.claw_id == v)) ∧
    (∀ pri2 : List (String × Int),
      (∀ s ∈ states, pri.lookup s.claw_id = pri2.lookup s.claw_id) →
        fuseCore tok states budget pri = fuseCore tok states budget pri2) := by
  refine ⟨?_, ?_, ?_⟩
  · rw [fuseCore_over tok states budget pri hover]
    show (ladder tok (sortDesc (fun s => prioOf pri s.claw_id) states) budget).Pairwise _
    have hsorted := sortDesc_pairwise (fun s => prioOf pri s.claw_id) states
    have hmap : ((sortDesc (fun s => prioOf pri s.claw_id) states).map (·.claw_id)).Pairwise
        (fun i j => prioOf pri j ≤ prioOf pri i) := List.pairwise_map.mpr hsorted
    have hsub := ladder_sources_sublist tok
      (sortDesc (fun s => prioOf pri s.claw_id) states) budget
    have hblocks := hmap.sublist hsub
    exact List.pairwise_map.mp hblocks
  · intro v
    exact sortDesc_filter (fun s => prioOf pri s.claw_id) v states
  · intro pri2 hag
    have hp : ∀ s ∈ states, prioOf pri s.claw_id = prioOf pri2 s.claw_id := by
      intro s hs
      unfold prioOf
      rw [hag s hs]
    have hsort : sortDesc (fun s => prioOf pri s.claw_id) states
        = sortDesc (fun s => prioOf pri2 s.claw_id) states :=
      sortDesc_congr _ _ states hp
    simp only [fuseCore, hsort]

theorem fuse_priority_order_witness :
    ¬ (fullSum String.length [wA, wB] : Int) ≤ 50 ∧
    ((fuseCore String.length [wA, wB] 50 [("pricing", 1), ("zzz", 7)]).blocks.Pairwise
        (fun b b' => prioOf [("pricing", 1), ("zzz", 7)] b'.source_claw_id
          ≤ prioOf [("pricing", 1), ("zzz", 7)] b.source_claw_id)) ∧
    ((sortDesc (fun s => prioOf [("pricing", 1), ("zzz", 7)] s.claw_id) [wA, wB]).filter
        (fun s => prioOf [("pricing", 1), ("zzz", 7)] s.claw_id == 1)
      = [wA, wB].filter (fun s => prioOf [("pricing", 1), ("zzz", 7)] s.claw_id == 1)) ∧
    fuseCore String.length [wA, wB] 50 [("pricing", 1), ("zzz", 7)]
      = fuseCore String.length [wA, wB] 50 [("pricing", 1)] :=
  ⟨by decide,
    (fuse_priority_order String.length [wA, wB] 50 [("pricing", 1), ("zzz", 7)] (by decide)).1,
    (fuse_priority_order String.length [wA, wB] 50 [("pricing", 1), ("zzz", 7)] (by decide)).2.1 1,
    (fuse_priority_order String.length [wA, wB] 50 [("pricing", 1), ("zzz", 7)] (by decide)).2.2
      [("pricing", 1)] (by decide)⟩

/-- A finding with no key facts: its facts-only rendering is the placeholder
`[claw_id: no facts available]`, which can be longer than the compressed
rendering. -/
def c6State : StateObject :=
  { claw_id := "a_really_long_claw_identifier", summary := "", key_facts := [],
    raw_context := "x" }

/-- Claim C6 counterexample: with the valid tokenizer `String.length` and a finding
with non-empty raw context but no key facts, the FACTS-ONLY rendering (the
placeholder naming the claw id) counts more tokens than the COMPRESSED
rendering, so monotone degradation fails as stated. -/
theorem degrade_counterexample :
    c6State.raw_context.isEmpty = false ∧
    ¬ (String.length (format_compressed_block c6State)
          ≤ String.length (format_full_block c6State) ∧
       String.length (format_facts_only c6State)
          ≤ String.length (format_compressed_block c6State)) := by
  decide

/-- Claim C6 amended: for any tokenizer monotone under appending and prepending,
COMPRESSED rendering token count ≤ FULL rendering token count whenever the raw
context is non-empty; and FACTS-ONLY ≤ COMPRESSED additionally requires at
least one key fact (so the placeholder is not used), all at full confidence. -/
theorem degrade_monotone (tok : String → Nat)
    (hpre : ∀ a b : String, tok a ≤ tok (a ++ b))
    (hsuf : ∀ a b : String, tok b ≤ tok (a ++ b)) (s : StateObject) :
    (s.raw_context.isEmpty = false →
      tok (format_compressed_block s) ≤ tok (format_full_block s)) ∧
    (s.key_facts.isEmpty = false → (∀ f ∈ s.key_facts, ¬ f.confidence < 1) →
      tok (format_facts_only s) ≤ tok (format_compressed_block s)) := by
  constructor
  · intro hraw
    rw [format_full_eq_append s hraw]
    exact hpre _ _
  · intro hfacts hconf
    rw [format_compressed_eq_append s hfacts hconf]
    exact hsuf _ _

theorem degrade_monotone_witness :
    String.length (format_compressed_block wA) ≤ String.length (format_full_block wA) ∧
    String.length (format_facts_only wA) ≤ String.length (format_compressed_block wA) :=
  ⟨(degrade_monotone String.length
      (fun a b => by rw [String.length_append]; exact Nat.le_add_right _ _)
      (fun a b => by rw [String.length_append]; exact Nat.le_add_left _ _) wA).1
      (by decide),
   (degrade_monotone String.length
      (fun a b => by rw [String.length_append]; exact Nat.le_add_right _ _)
      (fun a b => by rw [String.length_append]; exact Nat.le_add_left _ _) wA).2
      (by decide) (by decide)⟩

/-- Claim C7: `build_prompt` is a pure function of the fused context and query whose
output contains the query string verbatim, emits the content of every block
unaltered in stored order, and tags compressed blocks with a fidelity label
distinct from the label of FULL blocks. -/
theorem build_prompt_faithful (fused : FusedContext) (q : String) :
    (∃ t u, build_prompt fused q = t ++ (q ++ u)) ∧
    containsInOrder (fused.blocks.map (·.content)) (build_prompt fused q) ∧
    (∀ b b' : ContextBlock, b.is_compressed = true → b'.is_compressed = false →
      fidelityTag b ≠ fidelityTag b') := by
  refine ⟨?_, ?_, ?_⟩
  · have hparts : promptParts fused q
        = ("<FUSED_CONTEXT>"
            :: ((fused.blocks.map
                  (fun b => [blockHeader b, b.content, "</CONTEXT_BLOCK>"])).flatten
              ++ ["</FUSED_CONTEXT>", ""]))
          ++ ["<USER_QUERY>" ++ q ++ "</USER_QUERY>"] := by
      simp [promptParts]
    refine ⟨joinLines ("<FUSED_CONTEXT>"
        :: ((fused.blocks.map
              (fun b => [blockHeader b, b.content, "</CONTEXT_BLOCK>"])).flatten
          ++ ["</FUSED_CONTEXT>", ""])) ++ ("\n" ++ "<USER_QUERY>"),
      "</USER_QUERY>", ?_⟩
    rw [build_prompt, hparts, joinLines_append_single _ _ (by simp)]
    simp only [String.append_assoc]
  · rw [build_prompt]
    unfold promptParts
    rw [joinLines_cons _ _ (by simp)]
    exact containsInOrder_prepend _ _ _ (containsInOrder_prepend _ _ _
      (containsInOrder_flatten fused.blocks _ (by simp)))
  · intro b b' hcb hcb'
    rw [fidelityTag, fidelityTag, if_pos hcb, if_neg (by simp [hcb'])]
    decide

theorem build_prompt_faithful_witness :
    containsInOrder
      ((fuseCore String.length [wA, wB] 60 [("product", 5)]).blocks.map (·.content))
      (build_prompt (fuseCore String.length [wA, wB] 60 [("product", 5)]) "what?") ∧
    fidelityTag (mkCompressedBlock String.length wA)
      ≠ fidelityTag (mkFullBlock String.length wA) :=
  ⟨(build_prompt_faithful (fuseCore String.length [wA, wB] 60 [("product", 5)]) "what?").2.1,
   (build_prompt_faithful (fuseCore String.length [wA, wB] 60 [("product", 5)]) "what?").2.2
     (mkCompressedBlock String.length wA) (mkFullBlock String.length wA) rfl rfl⟩

/-- Claim C8: the advisory `token_count` field is never read by the fusion engine:
two input lists identical except for the `token_count` of their findings, with the
same budget override and priorities, fuse to identical FusedContexts. -/
theorem fuse_ignores_token_count (tok : String → Nat) (dflt : Int)
    (states1 states2 : List StateObject) (override : Option Int)
    (pri : List (String × Int))
    (h : List.Forall₂ sameButTokenCount states1 states2) :
    fuse tok dflt states1 override pri = fuse tok dflt states2 override pri := by
  unfold fuse
  have hmap : states1.map (mkFullBlock tok) = states2.map (mkFullBlock tok) := by
    induction h with
    | nil => rfl
    | cons hab hrest ih =>
      rename_i a b as bs
      simp only [List.map_cons, sameButTokenCount_mkFull tok a b hab, ih]
  have hsort := sameButTokenCount_sortDesc (fun s => prioOf pri s.claw_id)
    (fun a b hab => by
      show prioOf pri a.claw_id = prioOf pri b.claw_id
      rw [hab.1]) states1 states2 h
  have hladder := sameButTokenCount_ladder tok _ _ hsort (resolveBudget override dflt)
  have hlen : states1.length = states2.length := h.length_eq
  simp only [fuseCore, hmap, hladder]

theorem fuse_ignores_token_count_witness :
    fuse String.length 1000 [wA, wB] (some 50) [("product", 5)]
      = fuse String.length 1000
          [{ wA with token_count := 999 }, { wB with token_count := -3 }]
          (some 50) [("product", 5)] :=
  fuse_ignores_token_count String.length 1000 [wA, wB]
    [{ wA with token_count := 999 }, { wB with token_count := -3 }]
    (some 50) [("product", 5)]
    (List.Forall₂.cons ⟨rfl, rfl, rfl, rfl⟩
      (List.Forall₂.cons ⟨rfl, rfl, rfl, rfl⟩ List.Forall₂.nil))

/-- Claim C9: when the downstream synthesis call reports no usage information, the
SynthesisResult has promptTokens, completionTokens and totalTokens all 0;
otherwise they equal the reported usage values. -/
theorem synthesis_usage_defaults (content : Option String) (fused : FusedContext)
    (model : String) (u : TokenUsage) :
    (assembleResult content none fused model).usage
        = { prompt_tokens := 0, completion_tokens := 0, total_tokens := 0 } ∧
    (assembleResult content (some u) fused model).usage = u :=
  ⟨rfl, rfl⟩

/-- Claim C10: because the budget override is combined with the default via Python
truthiness (`token_budget or self.token_budget`), an explicit override of 0 is
not used as the budget: fuse with override 0 behaves identically to fuse with
no override (the configured default budget of the engine). -/
theorem fuse_zero_budget_override (tok : String → Nat) (dflt : Int)
    (states : List StateObject) (pri : List (String × Int)) :
    fuse tok dflt states (some 0) pri = fuse tok dflt states none pri := rfl

end Fusionclaw
